import Mathlib

/-!
Verification of the concurrent drive-mirroring engine
(`main.py`, `hybrid_main.py`) against its natural-language specification.

The repository contains two orchestration strategies:
* `main.py` — a process-pool-per-file engine (`mirror_drive_async`,
  `download_file`, `resolve_path_for_item`, `sanitize_name`);
* `hybrid_main.py` — a chunked multi-process async engine
  (`mirror_drive_hybrid`, `_worker_process_main`, `_download_task`,
  `_download_file_aio`, `_map_export_mime`).

Both are embedded shallowly below.  Python strings are Lean `String`s
(illegal-character sets are `List Char`), the local filesystem is an
existence map `String → Bool`, network / stream success is an explicit
environment oracle keyed by item id, and the nondeterministic completion
order of concurrent workers is a permutation parameter constrained by a
`List.Perm` hypothesis.  Loops whose termination is in question
(the parent-chain walk of `resolve_path_for_item`) take an explicit fuel
argument: the Python loop terminates on an input iff some fuel makes the
embedded function return `some`.
-/

set_option maxRecDepth 4096

namespace GDrive

/-! ## String helpers (model of Python `str.startswith`, `str.split(": ", 1)`) -/

/-- Model of Python `s.startswith(p)`. -/
def strStarts (p s : String) : Bool :=
  p.data.isPrefixOf s.data

/-- Terminal outcome messages in the sense of the spec: `Downloaded`,
`Skipped`, `Error` prefixes (spec §6 fixed vocabulary). -/
def isTerminalOutcome (m : String) : Bool :=
  strStarts "Downloaded:" m || strStarts "Skipped" m || strStarts "Error" m

/-- Predicate used by the hybrid consumer loop (`hybrid_main.py` line 293) to
decide whether a queue message counts as one file completion.  Note that it
also counts `WARNING:` messages, unlike `isTerminalOutcome`. -/
def isCompletionMsg (m : String) : Bool :=
  strStarts "Downloaded:" m || strStarts "Skipped" m || strStarts "Error" m ||
    strStarts "WARNING:" m

/-- Final sentinel messages named by spec §6. -/
def isSentinelMsg (m : String) : Bool :=
  m == "All worker processes finished." || m == "No files found."

/-- Model of `msg.split(": ", 1)[-1] if ": " in msg else msg`
(`hybrid_main.py` line 298). -/
def descOf (msg : String) : String :=
  match msg.splitOn ": " with
  | [] => msg
  | [_] => msg
  | _ :: rest => String.intercalate ": " rest

/-! ## Name sanitization (`main.py` `sanitize_name`, lines 84-99) -/

/-- Constant `MAX_PATH_LEN` from `main.py` line 15. -/
def MAX_PATH_LEN : Nat := 240

/-- The character set `'<>:"/\\|?*\0'` from `main.py` line 90. -/
def invalid_chars : List Char :=
  ['<', '>', ':', '"', '/', '\\', '|', '?', '*', '\x00']

/-- Model of Python `str.strip()` (drop surrounding whitespace). -/
def pyStrip (s : List Char) : List Char :=
  ((s.dropWhile Char.isWhitespace).reverse.dropWhile Char.isWhitespace).reverse

/-- Index of the last occurrence of `c` in `s` (Python `str.rfind`). -/
def rfindIdx (c : Char) (s : List Char) : Option Nat :=
  match (s.reverse.findIdx? (· == c)) with
  | none => none
  | some j => some (s.length - 1 - j)

/-- Model of `os.path.splitext` restricted to names without path
separators: split at the last dot, unless every character before that dot is
itself a dot (then there is no extension).  The extension includes the dot. -/
def splitext (s : List Char) : List Char × List Char :=
  match rfindIdx '.' s with
  | none => (s, [])
  | some d =>
    if (s.take d).any (fun ch => ch ≠ '.') then (s.take d, s.drop d)
    else (s, [])

/-- First reassignment of `clean` in `sanitize_name` (`main.py` line 91):
`''.join(ch if ch not in invalid_chars else '_' for ch in name)`. -/
def replacedName (name : String) : List Char :=
  name.data.map fun ch => if ch ∈ invalid_chars then '_' else ch

/-- Second reassignment (`main.py` line 92): `clean = clean.strip()`. -/
def cleanedName (name : String) : List Char :=
  pyStrip (replacedName name)

/-- Third, conditional reassignment (`main.py` lines 94-98): when the
cleaned name exceeds `MAX_PATH_LEN`, split off the extension, keep at most
20 characters of it, and truncate the base to fit. -/
def truncatedName (name : String) : List Char :=
  if MAX_PATH_LEN < (cleanedName name).length then
    (splitext (cleanedName name)).1.take
        (MAX_PATH_LEN - ((splitext (cleanedName name)).2.take 20).length) ++
      (splitext (cleanedName name)).2.take 20
  else cleanedName name

/-- Model of `sanitize_name` (`main.py` lines 84-99): replace each character
of `invalid_chars` by an underscore, strip surrounding whitespace, truncate
to `MAX_PATH_LEN` preserving at most 20 characters of extension, and map an
empty input or result to the literal name `untitled`. -/
def sanitize_name (name : String) : String :=
  if name = "" then "untitled"
  else if truncatedName name = [] then "untitled"
  else String.mk (truncatedName name)

/-- Character set `"\/:*?\"<>|"` of the inline sanitizer in
`hybrid_main.py` line 196 (Python keeps the unrecognized escape `\/` as a
backslash followed by a slash). -/
def hybrid_invalid_chars : List Char :=
  ['\\', '/', ':', '*', '?', '"', '<', '>', '|']

/-- Model of the inline sanitizer of `_download_task`
(`hybrid_main.py` line 196): `"".join(c for c in name if c not in "\/:*?\"<>|")`.
Illegal characters are deleted (not replaced), nothing else is done. -/
def hybridSanitize (name : String) : String :=
  String.mk (name.data.filter fun c => c ∉ hybrid_invalid_chars)

/-! ## Folder index and the parent-chain walk
(`main.py` `build_folder_map` / `resolve_path_for_item`, lines 69-126) -/

/-- Entry of the folder map: `{ name, parent }` (`main.py` lines 77-80). -/
structure FolderRec where
  name : String
  parent : Option String
deriving DecidableEq, Repr

/-- `folder_map`: association list from folder id to its record, modelling
the Python dict built by `build_folder_map`. -/
def FolderMap := List (String × FolderRec)

/-- Model of the `while parent and parent in folder_map` loop of
`resolve_path_for_item` (`main.py` lines 111-114).  The Python loop has no
visited-set or depth guard, so the embedding takes explicit fuel: one unit
is consumed per iteration, and `none` means the fuel ran out, i.e. the
Python loop performs more than `fuel` iterations on this input.
On success the returned list is the `parts` list, root-most segment first. -/
def chainWalk (fm : FolderMap) : Nat → Option String → Option (List String)
  | _, none => some []
  | 0, some q =>
    match (List.lookup q fm) with
    | none => some []
    | some _ => none
  | fuel + 1, some q =>
    match (List.lookup q fm) with
    | none => some []
    | some e => (chainWalk fm fuel e.parent).map (fun ps => ps ++ [sanitize_name e.name])

/-- One step of the parent chain: from a current parent pointer to the next
one; `none` conflates both successful stops of the loop (no parent, or
parent id absent from the index). -/
def nextParent (fm : FolderMap) : Option String → Option String
  | none => none
  | some q =>
    match (List.lookup q fm) with
    | none => none
    | some e => e.parent

/-- Acyclicity of a folder map: no folder id present in the index returns to
itself by following parent pointers for between 1 and `fm.length` steps.
(A minimal parent-chain cycle visits pairwise-distinct ids of the index, so
its length is at most the number of entries; hence this bounded condition
rules out every cycle.) -/
def AcyclicFM (fm : FolderMap) : Prop :=
  ∀ q ∈ fm.map Prod.fst, ∀ k, k ≤ fm.length → 0 < k →
    (nextParent fm)^[k] (some q) ≠ some q

instance (fm : FolderMap) : Decidable (AcyclicFM fm) := by
  unfold AcyclicFM
  infer_instance

/-! ## Items and local path resolution -/

/-- Item record as consumed by the engines: the fields of
`files(id, name, mimeType, parents, size, shared)` that the mirroring code
reads. -/
structure DItem where
  id : String
  name : String
  mimeType : String
  parents : List String
  shared : Bool
deriving DecidableEq, Repr

/-- Initial parent pointer: `item.get('parents', [None])[0] if item.get('parents') else None`
(`main.py` line 108). -/
def headParent (it : DItem) : Option String :=
  it.parents.head?

/-- Segment list computed by `resolve_path_for_item` (`main.py` lines
107-122): the parent-chain walk result, or the fallback segment `Shared` /
`My Drive` when the walk produced no segments.  `none` propagates
non-termination of the unguarded walk. -/
def resolve_parts (fm : FolderMap) (fuel : Nat) (it : DItem) : Option (List String) :=
  (chainWalk fm fuel (headParent it)).map fun parts =>
    if parts = [] then (if it.shared then ["Shared"] else ["My Drive"]) else parts

/-- Model of `os.path.join` on relative (sanitized, separator-free)
segments after a root: fold the segments onto the root with the POSIX
separator. -/
def joinPath (segs : List String) : String :=
  match segs with
  | [] => ""
  | s :: rest => rest.foldl (fun acc seg => acc ++ "/" ++ seg) s

/-- Model of `get_local_path` (`main.py` lines 129-136): directory from
`resolve_path_for_item` joined with the sanitized item name. -/
def get_local_path (fm : FolderMap) (fuel : Nat) (root : String) (it : DItem) :
    Option String :=
  (resolve_parts fm fuel it).map fun parts =>
    joinPath (root :: (parts ++ [sanitize_name it.name]))

/-- Mime type marker for native Google documents. -/
def gappsMarker : String := "application/vnd.google-apps"

/-- Extension chosen by `download_file` (`main.py` lines 151-176): fixed
export extensions for native types (with a `.pdf` fallback), and
`os.path.splitext(name)[1]` for binary files. -/
def main_ext (it : DItem) : String :=
  if strStarts gappsMarker it.mimeType then
    if it.mimeType = "application/vnd.google-apps.document" then ".docx"
    else if it.mimeType = "application/vnd.google-apps.spreadsheet" then ".xlsx"
    else if it.mimeType = "application/vnd.google-apps.presentation" then ".pptx"
    else ".pdf"
  else String.mk (splitext it.name.data).2

/-! ## Filesystem and transfer model -/

/-- Existence map of the local filesystem: `fs p = true` iff a file exists at
path `p`.  This is the observable state the atomicity and idempotence claims
are about. -/
def FSet := String → Bool

/-- Point update of the existence map (file creation / removal). -/
def fsSet (fs : FSet) (p : String) (v : Bool) : FSet :=
  fun q => if q = p then v else fs q

/-- Environment oracle for one run: per item id, whether the streaming
transfer of that item succeeds (`ok`), and the text of the raised exception
when it does not (`err`).  Metadata listing and request construction are
assumed to succeed, matching the nominal runs the claims quantify over. -/
structure TEnv where
  ok : String → Bool
  err : String → String

/-- Model of `download_file` (`main.py` lines 140-190) acting on the
filesystem existence map.  The final path is `get_local_path(...) + ext`;
if a file already exists there the item is skipped; otherwise
`io.FileIO(final_path, 'wb')` creates a file at the FINAL path (there is no
temporary `.part` file in this engine) and the chunk loop either completes
(`Downloaded`) or raises (`Error`) — in both cases the created file stays at
the final path.  Returns `none` when the parent-chain walk exceeds `fuel`
(modelling non-termination of `resolve_path_for_item`). -/
def download_file (env : TEnv) (fm : FolderMap) (fuel : Nat) (root : String)
    (fs : FSet) (it : DItem) : Option (FSet × String) :=
  (get_local_path fm fuel root it).map fun base =>
    let final := base ++ main_ext it
    if fs final then (fs, "Skipped (exists): " ++ final)
    else
      let fs1 := fsSet fs final true
      if env.ok it.id then (fs1, "Downloaded: " ++ final)
      else (fs1, "Error downloading " ++ it.name ++ ": " ++ env.err it.id)

/-- Model of `_download_file_aio` (`hybrid_main.py` lines 110-126): create
the temporary `dest + '.part'` file, stream into it, and only on full
success `os.replace` it onto `dest` (removing the temporary).  `fails = true`
models an exception raised mid-stream: the temporary file remains and the
replace never happens.  The second component reports success. -/
def download_file_aio (fs : FSet) (dest : String) (fails : Bool) : FSet × Bool :=
  let tmp := dest ++ ".part"
  let fs1 := fsSet fs tmp true
  if fails then (fs1, false)
  else (fsSet (fsSet fs1 tmp false) dest true, true)

/-- Model of `_map_export_mime` (`hybrid_main.py` lines 128-141). -/
def _map_export_mime (mime : String) : Option String :=
  if mime = "application/vnd.google-apps.document" then
    some "application/vnd.openxmlformats-officedocument.wordprocessingml.document"
  else if mime = "application/vnd.google-apps.spreadsheet" then
    some "application/vnd.openxmlformats-officedocument.spreadsheetml.sheet"
  else if mime = "application/vnd.google-apps.presentation" then
    some "application/vnd.openxmlformats-officedocument.presentationml.presentation"
  else if strStarts gappsMarker mime then some "application/pdf"
  else none

/-- Extension table of `_download_task` (`hybrid_main.py` lines 183-188),
keyed by export mime type, with default `''`. -/
def exportExt (em : String) : String :=
  if em = "application/vnd.openxmlformats-officedocument.wordprocessingml.document" then
    ".docx"
  else if em = "application/vnd.openxmlformats-officedocument.spreadsheetml.sheet" then
    ".xlsx"
  else if em = "application/vnd.openxmlformats-officedocument.presentationml.presentation" then
    ".pptx"
  else if em = "application/pdf" then ".pdf"
  else ""

/-- Extension selected by `_download_task`: export extension for native
types (`none` would mean no export mapping and a skip), and the empty string
for direct binary downloads (the hybrid engine sets `ext = ''` for them,
`hybrid_main.py` line 193). -/
def hybridExtFor (it : DItem) : Option String :=
  if strStarts gappsMarker it.mimeType then
    (_map_export_mime it.mimeType).map exportExt
  else some ""

/-- Model of `_download_task` (`hybrid_main.py` lines 170-221): skip when a
native type has no export mapping, otherwise build
`os.path.join(output_folder, safe_name + ext)` — note: no folder-path
reconstruction and no pre-existence check — run `_download_file_aio`, and
report `Downloaded` or `Error`.  Exactly one message per item in all cases. -/
def hybrid_download_task (env : TEnv) (outFolder : String) (fs : FSet)
    (it : DItem) : FSet × String :=
  match hybridExtFor it with
  | none => (fs, "Skipped (no export type): " ++ it.name)
  | some ext =>
    let dest := outFolder ++ "/" ++ (hybridSanitize it.name ++ ext)
    let res := download_file_aio fs dest (!env.ok it.id)
    if res.2 then (res.1, "Downloaded: " ++ dest)
    else (res.1, "Error downloading " ++ it.name ++ ": " ++ env.err it.id)

/-- Sequential threading of `download_file` over an item list, collecting
the per-item messages.  The concurrent process pool of `mirror_drive_async`
interleaves whole-item transfers; since each item only touches its own final
path, a sequential threading in dispatch order is an adequate model of the
shared filesystem state, and the completion order of the message stream is
abstracted separately as a permutation. -/
def runDownloads (env : TEnv) (fm : FolderMap) (fuel : Nat) (root : String) :
    FSet → List DItem → Option (FSet × List String)
  | fs, [] => some (fs, [])
  | fs, it :: rest =>
    (download_file env fm fuel root fs it).bind fun r =>
      (runDownloads env fm fuel root r.1 rest).map fun r2 => (r2.1, r.2 :: r2.2)

/-! ## Orchestration: `mirror_drive_async` (`main.py` lines 194-237) -/

/-- Recorded invocation of the external progress callback. -/
structure CbEvent where
  completed : Nat
  total : Nat
  desc : String
deriving DecidableEq, Repr

/-- External progress callback, modelled by whether each invocation raises:
`cb completed total desc = true` means the callback raised an exception on
that invocation. -/
def Cb := Nat → Nat → String → Bool

/-- Model of the result-collection loop of `mirror_drive_async` (`main.py`
lines 225-234): for each completed task result, increment `completed`,
invoke the callback inside `try: ... except Exception: pass` (the raise-flag
is consulted and discarded — a raising callback changes nothing), and yield
the result.  Returns the yielded messages and the recorded callback
invocations. -/
def asyncEmit (cb : Cb) (total : Nat) : Nat → List String → List String × List CbEvent
  | _, [] => ([], [])
  | completed, r :: rest =>
    let c := completed + 1
    let _raised := cb c total r
    let res := asyncEmit cb total c rest
    (r :: res.1, ⟨c, total, r⟩ :: res.2)

/-- Model of `mirror_drive_async` (`main.py` lines 194-237) downstream of
metadata listing.  `targets` is the non-folder item list; `results` is the
per-item result messages in `asyncio.as_completed` order, which is a
nondeterministic permutation of the dispatched tasks (constrained by a
`List.Perm` hypothesis at the theorems).  With no targets the generator
yields only `No files found to download.` and returns; otherwise it yields
exactly the task results — there is no final sentinel message in this
engine. -/
def mirror_drive_async (cb : Cb) (targets : List DItem) (results : List String) :
    List String × List CbEvent :=
  if targets.length = 0 then (["No files found to download."], [])
  else asyncEmit cb targets.length 0 results

/-! ## Orchestration: `mirror_drive_hybrid` (`hybrid_main.py` lines 237-322) -/

/-- Model of the consumer loop of `mirror_drive_hybrid` (`hybrid_main.py`
lines 287-306).  `queue` is the stream of messages the worker processes put
into the shared queue, in arrival order.  While `completed < total`: take
the next message; count it as a completion if it matches the
`Downloaded/Skipped/Error/WARNING` test; invoke the callback (NOT separately
guarded — but the surrounding `try` of the loop body catches a raising
callback as if the queue read had timed out, so the current message is
dropped from the yield stream and, when no worker process remains alive
(`alive rest = false`), the loop breaks).  An empty queue models the final
timeout with no alive workers: break.  Returns
(yielded messages, callback events, messages left in the queue). -/
def hybridConsume (cb : Cb) (alive : List String → Bool) (total : Nat) :
    Nat → List String → List String × List CbEvent × List String
  | _, [] => ([], [], [])
  | completed, msg :: rest =>
    if completed < total then
      let c := if isCompletionMsg msg then completed + 1 else completed
      if cb c total (descOf msg) then
        if alive rest then
          ((hybridConsume cb alive total c rest).1,
            ⟨c, total, descOf msg⟩ :: (hybridConsume cb alive total c rest).2.1,
            (hybridConsume cb alive total c rest).2.2)
        else ([], [⟨c, total, descOf msg⟩], rest)
      else
        (msg :: (hybridConsume cb alive total c rest).1,
          ⟨c, total, descOf msg⟩ :: (hybridConsume cb alive total c rest).2.1,
          (hybridConsume cb alive total c rest).2.2)
    else ([], [], msg :: rest)

/-- Model of `mirror_drive_hybrid` (`hybrid_main.py` lines 237-322)
downstream of metadata listing: with no targets yield exactly
`No files found.`; otherwise run the consumer loop over the queue stream,
then drain whatever the loop left in the queue (yielding it without
callbacks), and finally yield the sentinel
`All worker processes finished.`. -/
def mirror_drive_hybrid (cb : Cb) (alive : List String → Bool)
    (targets : List DItem) (queue : List String) : List String × List CbEvent :=
  if targets.length = 0 then (["No files found."], [])
  else
    let res := hybridConsume cb alive targets.length 0 queue
    (res.1 ++ res.2.2 ++ ["All worker processes finished."], res.2.1)

/-! ## Helper lemmas about message prefixes -/

theorem strStarts_append (p r : String) : strStarts p (p ++ r) = true := by
  simp [strStarts, String.data_append]

theorem strStarts_trans_append (p q r : String) (h : strStarts p q = true) :
    strStarts p (q ++ r) = true := by
  simp only [strStarts, String.data_append, List.isPrefixOf_iff_prefix] at h ⊢
  exact h.trans ⟨_, rfl⟩

theorem strStarts_head (p s : String) (c : Char) (cs : List Char)
    (hp : p.data = c :: cs) (h : strStarts p s = true) :
    ∃ t, s.data = c :: t := by
  simp only [strStarts, List.isPrefixOf_iff_prefix] at h
  obtain ⟨t, ht⟩ := h
  exact ⟨cs ++ t, by rw [← ht, hp, List.cons_append]⟩

theorem ne_of_strStarts_head (p s : String) (c c' : Char) (cs cs' : List Char)
    (hp : p.data = c :: cs) (h : strStarts p s = true)
    (t : String) (ht : t.data = c' :: cs') (hcc : c ≠ c') : s ≠ t := by
  intro hst
  obtain ⟨u, hu⟩ := strStarts_head p s c cs hp h
  rw [hst, ht] at hu
  exact hcc (List.cons.injEq .. ▸ hu).1.symm

theorem strStarts_false_of_head (p s : String) (c c' : Char) (cs cs' : List Char)
    (hp : p.data = c :: cs) (hs : s.data = c' :: cs') (hcc : c ≠ c') :
    strStarts p s = false := by
  cases h : strStarts p s
  · rfl
  · obtain ⟨t, ht⟩ := strStarts_head p s c cs hp h
    rw [hs] at ht
    exact absurd (List.cons.injEq .. ▸ ht).1.symm hcc

theorem terminal_downloaded (r : String) :
    isTerminalOutcome ("Downloaded: " ++ r) = true := by
  have h := strStarts_trans_append "Downloaded:" "Downloaded: " r (by decide)
  simp [isTerminalOutcome, h]

theorem terminal_skipped_exists (r : String) :
    isTerminalOutcome ("Skipped (exists): " ++ r) = true := by
  have h := strStarts_trans_append "Skipped" "Skipped (exists): " r (by decide)
  simp [isTerminalOutcome, h]

theorem terminal_skipped_noexport (r : String) :
    isTerminalOutcome ("Skipped (no export type): " ++ r) = true := by
  have h := strStarts_trans_append "Skipped" "Skipped (no export type): " r (by decide)
  simp [isTerminalOutcome, h]

theorem terminal_error (a b : String) :
    isTerminalOutcome ("Error downloading " ++ a ++ ": " ++ b) = true := by
  have h1 := strStarts_trans_append "Error" "Error downloading " a (by decide)
  have h2 := strStarts_trans_append "Error" ("Error downloading " ++ a) ": " h1
  have h3 := strStarts_trans_append "Error" ("Error downloading " ++ a ++ ": ") b h2
  simp [isTerminalOutcome, h3]

theorem download_file_aio_snd (fs : FSet) (dest : String) (fails : Bool) :
    (download_file_aio fs dest fails).2 = !fails := by
  cases fails <;> simp [download_file_aio]

/-- Messages produced by `download_file` always carry one of the three
terminal-outcome prefixes. -/
theorem download_file_msg_terminal (env : TEnv) (fm : FolderMap) (fuel : Nat)
    (root : String) (fs : FSet) (it : DItem) (fs1 : FSet) (msg : String)
    (h : download_file env fm fuel root fs it = some (fs1, msg)) :
    isTerminalOutcome msg = true := by
  unfold download_file at h
  cases hp : get_local_path fm fuel root it with
  | none => rw [hp] at h; simp [Option.map] at h
  | some base =>
    rw [hp] at h
    simp only [Option.map, Option.some.injEq] at h
    by_cases he : fs (base ++ main_ext it) = true
    · simp only [he, if_true] at h
      have hm : msg = "Skipped (exists): " ++ (base ++ main_ext it) :=
        (Prod.mk.injEq .. ▸ h).2.symm
      rw [hm]; exact terminal_skipped_exists _
    · simp only [Bool.not_eq_true] at he
      simp only [he, Bool.false_eq_true, if_false] at h
      by_cases ho : env.ok it.id = true
      · simp only [ho, if_true] at h
        have hm : msg = "Downloaded: " ++ (base ++ main_ext it) :=
          (Prod.mk.injEq .. ▸ h).2.symm
        rw [hm]; exact terminal_downloaded _
      · simp only [ho, Bool.false_eq_true, if_false] at h
        have hm : msg = "Error downloading " ++ it.name ++ ": " ++ env.err it.id :=
          (Prod.mk.injEq .. ▸ h).2.symm
        rw [hm]; exact terminal_error _ _

/-- Messages produced by `_download_task` always carry one of the three
terminal-outcome prefixes. -/
theorem hybrid_task_msg_terminal (env : TEnv) (outFolder : String) (fs : FSet)
    (it : DItem) :
    isTerminalOutcome (hybrid_download_task env outFolder fs it).2 = true := by
  cases hx : hybridExtFor it with
  | none =>
    simp only [hybrid_download_task, hx]
    exact terminal_skipped_noexport _
  | some ext =>
    simp only [hybrid_download_task, hx, download_file_aio_snd, Bool.not_not]
    cases ho : env.ok it.id
    · simp only [ho, Bool.false_eq_true, if_false]
      exact terminal_error _ _
    · simp only [ho, if_true]
      exact terminal_downloaded _

/-! ## Properties of `sanitize_name` (claim C5) -/

theorem mem_pyStrip (c : Char) (s : List Char) (h : c ∈ pyStrip s) : c ∈ s := by
  unfold pyStrip at h
  rw [List.mem_reverse] at h
  have h2 : c ∈ (s.dropWhile Char.isWhitespace).reverse :=
    (List.dropWhile_sublist _).mem h
  rw [List.mem_reverse] at h2
  exact (List.dropWhile_sublist _).mem h2

theorem splitext_append (s : List Char) : (splitext s).1 ++ (splitext s).2 = s := by
  unfold splitext
  cases h : rfindIdx '.' s with
  | none => simp
  | some d =>
    dsimp only
    split
    · exact List.take_append_drop d s
    · simp

/-- Every character of the replaced name is either an underscore or a legal
character of the original name; in both cases it is legal. -/
theorem mem_replaced_legal (name : String) (c : Char)
    (h : c ∈ replacedName name) : c ∉ invalid_chars := by
  obtain ⟨a, _, rfl⟩ := List.mem_map.mp h
  by_cases ha : a ∈ invalid_chars
  · simp only [ha, if_true]
    decide
  · simp [ha]

/-- Characters of the truncated name all come from the cleaned name. -/
theorem mem_truncated (name : String) (c : Char)
    (h : c ∈ truncatedName name) : c ∈ cleanedName name := by
  unfold truncatedName at h
  split at h
  · rcases List.mem_append.mp h with h1 | h1
    · have h2 := List.mem_of_mem_take h1
      have h3 : c ∈ (splitext (cleanedName name)).1 ++ (splitext (cleanedName name)).2 :=
        List.mem_append.mpr (Or.inl h2)
      rwa [splitext_append] at h3
    · have h2 := List.mem_of_mem_take h1
      have h3 : c ∈ (splitext (cleanedName name)).1 ++ (splitext (cleanedName name)).2 :=
        List.mem_append.mpr (Or.inr h2)
      rwa [splitext_append] at h3
  · exact h

theorem truncated_len_le (name : String) :
    (truncatedName name).length ≤ MAX_PATH_LEN := by
  unfold truncatedName
  split
  · rw [List.length_append, List.length_take]
    have he : ((splitext (cleanedName name)).2.take 20).length ≤ 20 := by
      rw [List.length_take]; omega
    have hm := Nat.min_le_left
      (MAX_PATH_LEN - ((splitext (cleanedName name)).2.take 20).length)
      ((splitext (cleanedName name)).1.length)
    unfold MAX_PATH_LEN at *
    omega
  · rename_i hlen
    omega

theorem sanitize_name_ne_empty (name : String) : sanitize_name name ≠ "" := by
  unfold sanitize_name
  split
  · decide
  · split
    · decide
    · rename_i hne
      intro h
      exact hne (congrArg String.data h)

theorem sanitize_name_legal (name : String) (c : Char)
    (hc : c ∈ (sanitize_name name).data) : c ∉ invalid_chars := by
  have hu : ∀ x ∈ ("untitled" : String).data, x ∉ invalid_chars := by decide
  unfold sanitize_name at hc
  split at hc
  · exact hu c hc
  · split at hc
    · exact hu c hc
    · exact mem_replaced_legal name c (mem_pyStrip c _ (mem_truncated name c hc))

theorem sanitize_name_len_le (name : String) :
    (sanitize_name name).length ≤ MAX_PATH_LEN := by
  unfold sanitize_name
  split
  · decide
  · split
    · decide
    · exact truncated_len_le name

/-- COUNTEREXAMPLE to C5.  The claim quantifies over the program's name
sanitization, and the claim's sources cite both sanitization sites; the
inline sanitizer of `_download_task` (`hybrid_main.py` line 196) is not
total in the claimed sense: it maps the empty name to the empty string (not
`untitled`) and deletes illegal characters instead of replacing them with
underscores (`a<b` becomes `ab`, not `a_b`), with no trimming or length
truncation.  `sanitize_name` of `main.py`, by contrast, behaves as claimed
on the same inputs. -/
theorem C5_counterexample :
    hybridSanitize "" = "" ∧ hybridSanitize "a<b" = "ab" ∧
      sanitize_name "" = "untitled" ∧ sanitize_name "a<b" = "a_b" := by
  refine ⟨by decide, by decide, by decide, by decide⟩

/-- AMENDED C5: `sanitize_name` (`main.py` lines 84-99) is total exactly as
claimed — for every input name it returns a non-empty string of at most 240
characters none of which is one of the illegal characters
`< > : " / \ | ? *` or the null character, and the empty name maps to the
literal `untitled`.  (The hybrid engine's inline sanitizer does not satisfy
this; see the counterexample.) -/
theorem C5_sanitize_total :
    (∀ name : String,
      sanitize_name name ≠ "" ∧
      (sanitize_name name).length ≤ MAX_PATH_LEN ∧
      ∀ c ∈ (sanitize_name name).data, c ∉ invalid_chars) ∧
    sanitize_name "" = "untitled" := by
  refine ⟨fun name => ⟨sanitize_name_ne_empty name, sanitize_name_len_le name,
    fun c hc => sanitize_name_legal name c hc⟩, by decide⟩

/-! ## Claim C3: termination of the parent-chain walk -/

/-- Folder index consisting of one self-referential folder (its `parents`
entry points at itself), as can arise from corrupted or adversarial remote
metadata. -/
def cycFM : FolderMap := [("a", ⟨"A", some "a"⟩)]

theorem chainWalk_cycFM_eq_none (f : Nat) :
    chainWalk cycFM f (some "a") = none := by
  induction f with
  | zero => rfl
  | succ n ih =>
    have hstep : chainWalk cycFM (n + 1) (some "a") =
        (chainWalk cycFM n (some "a")).map (fun ps => ps ++ [sanitize_name "A"]) := rfl
    rw [hstep, ih]
    rfl

theorem lookup_mem_keys (fm : FolderMap) (q : String)
    (h : (List.lookup q fm).isSome = true) : q ∈ fm.map Prod.fst := by
  rw [List.lookup_isSome_iff] at h
  obtain ⟨p, hp, hbeq⟩ := h
  exact List.mem_map.mpr ⟨p, hp, (beq_iff_eq.mp hbeq).symm⟩

/-- When the walk runs out of fuel `f`, every parent-chain state reachable
in at most `f` steps is an active one: a folder id present in the index. -/
theorem chainWalk_none_active (fm : FolderMap) :
    ∀ (f : Nat) (s : Option String), chainWalk fm f s = none →
      ∀ k, k ≤ f → ∃ q, (nextParent fm)^[k] s = some q ∧
        (List.lookup q fm).isSome = true := by
  intro f
  induction f with
  | zero =>
    intro s h k hk
    have hk0 : k = 0 := Nat.le_zero.mp hk
    subst hk0
    cases s with
    | none => exact absurd h (by simp [chainWalk])
    | some q =>
      cases hl : List.lookup q fm with
      | none => rw [chainWalk, hl] at h; exact absurd h (by simp)
      | some e => exact ⟨q, rfl, by rw [hl]; rfl⟩
  | succ n ih =>
    intro s h k hk
    cases s with
    | none => exact absurd h (by simp [chainWalk])
    | some q =>
      cases hl : List.lookup q fm with
      | none => rw [chainWalk, hl] at h; exact absurd h (by simp)
      | some e =>
        simp only [chainWalk, hl] at h
        have hrec : chainWalk fm n e.parent = none := by
          cases hc : chainWalk fm n e.parent with
          | none => rfl
          | some ps => rw [hc] at h; exact absurd h (by simp)
        cases k with
        | zero => exact ⟨q, rfl, by rw [hl]; rfl⟩
        | succ j =>
          have hnp : nextParent fm (some q) = e.parent := by
            rw [nextParent, hl]
          rw [Function.iterate_succ_apply, hnp]
          exact ih e.parent hrec j (Nat.succ_le_succ_iff.mp hk)

/-- A parent chain that stays active and revisits a folder id contradicts
acyclicity of the index. -/
theorem chainWalk_revisit_absurd (fm : FolderMap) (hac : AcyclicFM fm)
    (s : Option String)
    (hact : ∀ k, k ≤ fm.length + 1 → ∃ q, (nextParent fm)^[k] s = some q ∧
      (List.lookup q fm).isSome = true)
    (i j : Nat) (hi : i ≤ fm.length) (hj : j ≤ fm.length) (hlt : i < j)
    (heq : ((nextParent fm)^[i] s).getD "" = ((nextParent fm)^[j] s).getD "") :
    False := by
  obtain ⟨qi, hqi, hlki⟩ := hact i (by omega)
  obtain ⟨qj, hqj, hlkj⟩ := hact j (by omega)
  rw [hqi, hqj] at heq
  simp only [Option.getD_some] at heq
  subst heq
  have hsplit : (nextParent fm)^[j] s =
      (nextParent fm)^[j - i] ((nextParent fm)^[i] s) := by
    rw [← Function.iterate_add_apply]
    congr 1
    omega
  rw [hqi] at hsplit
  have hcyc : (nextParent fm)^[j - i] (some qi) = some qi := by
    rw [← hsplit, hqj]
  exact hac qi (lookup_mem_keys fm qi hlki) (j - i) (by omega) (by omega) hcyc

/-- AMENDED C3: the parent-chain walk of `resolve_path_for_item` terminates
on every folder index whose parent relation is acyclic — fuel
`fm.length + 1` always suffices, by pigeonhole on the folder ids that a
longer chain would have to revisit.  (The code has no visited-set or
maximum-depth guard, so on a CYCLIC chain the walk does not terminate; see
the counterexample.) -/
theorem C3_walk_terminates_acyclic (fm : FolderMap) (hac : AcyclicFM fm)
    (s : Option String) :
    ∃ parts, chainWalk fm (fm.length + 1) s = some parts := by
  cases hcw : chainWalk fm (fm.length + 1) s with
  | some parts => exact ⟨parts, rfl⟩
  | none =>
    exfalso
    have hact := chainWalk_none_active fm (fm.length + 1) s hcw
    have hmaps : ∀ k ∈ Finset.range (fm.length + 1),
        ((nextParent fm)^[k] s).getD "" ∈ (fm.map Prod.fst).toFinset := by
      intro k hk
      obtain ⟨q, hq, hlk⟩ := hact k (by
        have := Finset.mem_range.mp hk; omega)
      rw [hq]
      exact List.mem_toFinset.mpr (lookup_mem_keys fm q hlk)
    have hcard : (fm.map Prod.fst).toFinset.card < (Finset.range (fm.length + 1)).card := by
      have h1 : (fm.map Prod.fst).toFinset.card ≤ (fm.map Prod.fst).length :=
        List.toFinset_card_le _
      rw [List.length_map] at h1
      rw [Finset.card_range]
      omega
    obtain ⟨i, hi, j, hj, hij, hfij⟩ :=
      Finset.exists_ne_map_eq_of_card_lt_of_maps_to hcard hmaps
    -- normalize to i < j
    rcases Nat.lt_or_ge i j with hlt | hge
    · exact chainWalk_revisit_absurd fm hac s hact i j
        (by have := Finset.mem_range.mp hi; omega)
        (by have := Finset.mem_range.mp hj; omega) hlt hfij
    · have hlt : j < i := Nat.lt_of_le_of_ne hge (fun h => hij h.symm)
      exact chainWalk_revisit_absurd fm hac s hact j i
        (by have := Finset.mem_range.mp hj; omega)
        (by have := Finset.mem_range.mp hi; omega) hlt hfij.symm

/-- COUNTEREXAMPLE to C3.  The claim says the parent-chain walk terminates
even on a cyclic or self-referential chain, being bounded by a visited set
or maximum depth.  The loop of `resolve_path_for_item` (`main.py` lines
111-114) has no such guard: on the one-folder self-referential index
`cycFM`, no amount of fuel makes the walk stop — i.e. the Python `while`
loop runs forever. -/
theorem C3_counterexample :
    ¬ ∃ fuel, (chainWalk cycFM fuel (some "a")).isSome = true := by
  rintro ⟨f, hf⟩
  rw [chainWalk_cycFM_eq_none f] at hf
  exact absurd hf (by decide)

/-- Acyclic two-folder index used as the concrete witness for C3. -/
def wFM : FolderMap := [("a", ⟨"A", none⟩), ("b", ⟨"B", some "a"⟩)]

theorem C3_witness :
    AcyclicFM wFM ∧
      ∃ parts, chainWalk wFM (wFM.length + 1) (some "b") = some parts :=
  ⟨by decide, C3_walk_terminates_acyclic wFM (by decide) (some "b")⟩

/-! ## Claim C2: atomicity of the streamed transfer -/

theorem self_ne_append (s t : String) (ht : t ≠ "") : s ≠ s ++ t := by
  intro h
  have hd : s.data = s.data ++ t.data := by
    calc s.data = (s ++ t).data := by rw [← h]
    _ = s.data ++ t.data := String.data_append s t
  have hlen := congrArg List.length hd
  rw [List.length_append] at hlen
  have ht0 : t.data.length = 0 := by omega
  exact ht (String.ext (List.length_eq_zero.mp ht0))

/-- COUNTEREXAMPLE to C2.  The claim says every item's content is streamed
to a `.part` temporary and the final path is materialized only on full
success.  `download_file` in `main.py` (lines 182-187) opens
`io.FileIO(final_path, 'wb')` directly on the FINAL path without any
temporary: on the concrete binary item `a.txt` whose transfer fails
mid-stream, the run reports an error, yet a (partial) file exists at the
final destination path `out/My Drive/a.txt.txt`.  (The hybrid engine's
`_download_file_aio` does use a `.part` temporary; see the amended
theorem.) -/
theorem C2_counterexample :
    (download_file ⟨fun _ => false, fun _ => "network error"⟩ [] 1 "out"
        (fun _ => false) ⟨"id1", "a.txt", "text/plain", [], false⟩).map
      (fun r => (r.1 "out/My Drive/a.txt.txt", r.2)) =
      some (true, "Error downloading a.txt: network error") := by
  decide

/-- AMENDED C2: the atomicity property holds of the hybrid engine's
fetcher `_download_file_aio` (`hybrid_main.py` lines 110-126): content is
streamed to the `dest + '.part'` temporary, and when the stream fails
mid-transfer no file exists at the final destination path — at most the
`.part` artifact differs from the initial filesystem — while a fully
successful transfer materializes the final path.  The process-pool engine
(`main.py` `download_file`) does NOT have this property: it writes directly
to the final path (see the counterexample). -/
theorem C2_hybrid_atomic (fs : FSet) (dest : String) (hne : fs dest = false) :
    (download_file_aio fs dest true).1 dest = false ∧
      (∀ p, p ≠ dest ++ ".part" → (download_file_aio fs dest true).1 p = fs p) ∧
      (download_file_aio fs dest false).1 dest = true := by
  have hdp : dest ≠ dest ++ ".part" := self_ne_append dest ".part" (by decide)
  refine ⟨?_, ?_, ?_⟩
  · show fsSet fs (dest ++ ".part") true dest = false
    unfold fsSet
    rw [if_neg hdp]
    exact hne
  · intro p hp
    show fsSet fs (dest ++ ".part") true p = fs p
    unfold fsSet
    rw [if_neg hp]
  · show fsSet (fsSet (fsSet fs (dest ++ ".part") true) (dest ++ ".part") false)
      dest true dest = true
    unfold fsSet
    rw [if_pos rfl]

theorem C2_witness :
    ((fun _ => false : FSet) "out/a.txt" = false) ∧
      (download_file_aio (fun _ => false) "out/a.txt" true).1 "out/a.txt" = false :=
  ⟨rfl, (C2_hybrid_atomic (fun _ => false) "out/a.txt" rfl).1⟩

/-! ## Claim C4: skip-if-exists and idempotence of a second run -/

/-- When the final path already exists, `download_file` skips: it reports
`Skipped (exists)` and leaves the filesystem untouched. -/
theorem download_file_skips_existing (env : TEnv) (fm : FolderMap) (fuel : Nat)
    (root : String) (fs : FSet) (it : DItem) (base : String)
    (hb : get_local_path fm fuel root it = some base)
    (hex : fs (base ++ main_ext it) = true) :
    download_file env fm fuel root fs it =
      some (fs, "Skipped (exists): " ++ (base ++ main_ext it)) := by
  unfold download_file
  rw [hb]
  simp only [Option.map, hex, if_true]

/-- After `download_file` completes on an item (whatever the outcome), a
file exists at that item's final path: it pre-existed, was fully
downloaded, or is the partial file the direct `FileIO` write left there. -/
theorem download_file_final_exists (env : TEnv) (fm : FolderMap) (fuel : Nat)
    (root : String) (fs : FSet) (it : DItem) (base : String) (fs1 : FSet)
    (msg : String)
    (hb : get_local_path fm fuel root it = some base)
    (h : download_file env fm fuel root fs it = some (fs1, msg)) :
    fs1 (base ++ main_ext it) = true := by
  unfold download_file at h
  rw [hb] at h
  simp only [Option.map, Option.some.injEq] at h
  by_cases hex : fs (base ++ main_ext it) = true
  · rw [if_pos hex] at h
    injection h with h1 h2
    rw [← h1]
    exact hex
  · simp only [Bool.not_eq_true] at hex
    rw [if_neg (by rw [hex]; exact Bool.false_ne_true)] at h
    have hfs1 : fs1 = fsSet fs (base ++ main_ext it) true := by
      by_cases ho : env.ok it.id = true
      · rw [if_pos ho] at h; injection h with h1 h2; exact h1.symm
      · rw [if_neg ho] at h; injection h with h1 h2; exact h1.symm
    rw [hfs1]
    unfold fsSet
    rw [if_pos rfl]

/-- The process-pool fetcher never deletes files: existence is monotone. -/
theorem download_file_mono (env : TEnv) (fm : FolderMap) (fuel : Nat)
    (root : String) (fs : FSet) (it : DItem) (fs1 : FSet) (msg : String)
    (h : download_file env fm fuel root fs it = some (fs1, msg))
    (p : String) (hp : fs p = true) : fs1 p = true := by
  unfold download_file at h
  cases hg : get_local_path fm fuel root it with
  | none => rw [hg] at h; exact absurd h (by simp [Option.map])
  | some base =>
    rw [hg] at h
    simp only [Option.map, Option.some.injEq] at h
    by_cases hex : fs (base ++ main_ext it) = true
    · rw [if_pos hex] at h
      injection h with h1 h2
      rw [← h1]
      exact hp
    · simp only [Bool.not_eq_true] at hex
      rw [if_neg (by rw [hex]; exact Bool.false_ne_true)] at h
      have hfs1 : fs1 = fsSet fs (base ++ main_ext it) true := by
        by_cases ho : env.ok it.id = true
        · rw [if_pos ho] at h; injection h with h1 h2; exact h1.symm
        · rw [if_neg ho] at h; injection h with h1 h2; exact h1.symm
      rw [hfs1]
      unfold fsSet
      split
      · rfl
      · exact hp

/-- After a full first run, every item's final path exists, and existence of
any other path is preserved. -/
theorem runDownloads_final_exists (env : TEnv) (fm : FolderMap) (fuel : Nat)
    (root : String) :
    ∀ (items : List DItem) (fs fs1 : FSet) (msgs : List String),
      runDownloads env fm fuel root fs items = some (fs1, msgs) →
      (∀ p, fs p = true → fs1 p = true) ∧
      (∀ it ∈ items, ∀ base, get_local_path fm fuel root it = some base →
        fs1 (base ++ main_ext it) = true) := by
  intro items
  induction items with
  | nil =>
    intro fs fs1 msgs h
    simp only [runDownloads, Option.some.injEq] at h
    refine ⟨fun p hp => ?_, fun it hit => absurd hit (List.not_mem_nil it)⟩
    injection h with h1 h2
    rw [← h1]
    exact hp
  | cons it0 rest ih =>
    intro fs fs1 msgs h
    simp only [runDownloads] at h
    cases hd : download_file env fm fuel root fs it0 with
    | none => rw [hd] at h; exact absurd h (by simp)
    | some r =>
      rw [hd, Option.some_bind] at h
      cases hr : runDownloads env fm fuel root r.1 rest with
      | none => rw [hr] at h; exact absurd h (by simp)
      | some r2 =>
        rw [hr, Option.map_some'] at h
        injection h with h12
        injection h12 with h1 h2
        obtain ⟨ihmono, ihex⟩ := ih r.1 r2.1 r2.2 (by rw [hr])
        refine ⟨fun p hp => ?_, fun it hit base hb => ?_⟩
        · rw [← h1]
          exact ihmono p (download_file_mono env fm fuel root fs it0 r.1 r.2
            (by rw [hd]) p hp)
        · rcases List.mem_cons.mp hit with rfl | hmem
          · rw [← h1]
            exact ihmono _ (download_file_final_exists env fm fuel root fs it
              base r.1 r.2 hb (by rw [hd]))
          · rw [← h1]
            exact ihex it hmem base hb

/-- When every item's final path already exists, a run changes nothing and
reports one `Skipped (exists)` outcome per item. -/
theorem runDownloads_all_skipped (env : TEnv) (fm : FolderMap) (fuel : Nat)
    (root : String) :
    ∀ (items : List DItem) (fs : FSet),
      (∀ it ∈ items, ∃ base, get_local_path fm fuel root it = some base ∧
        fs (base ++ main_ext it) = true) →
      ∃ msgs, runDownloads env fm fuel root fs items = some (fs, msgs) ∧
        msgs.length = items.length ∧
        ∀ m ∈ msgs, strStarts "Skipped (exists): " m = true := by
  intro items
  induction items with
  | nil =>
    intro fs _
    exact ⟨[], rfl, rfl, fun m hm => absurd hm (List.not_mem_nil m)⟩
  | cons it0 rest ih =>
    intro fs hall
    obtain ⟨base, hb, hex⟩ := hall it0 (List.mem_cons_self it0 rest)
    obtain ⟨msgs, hrun, hlen, hsk⟩ := ih fs (fun it hit => hall it (List.mem_cons_of_mem it0 hit))
    refine ⟨("Skipped (exists): " ++ (base ++ main_ext it0)) :: msgs, ?_, ?_, ?_⟩
    · simp only [runDownloads]
      rw [download_file_skips_existing env fm fuel root fs it0 base hb hex,
        Option.some_bind, hrun, Option.map_some']
    · simp [hlen]
    · intro m hm
      rcases List.mem_cons.mp hm with rfl | hmem
      · exact strStarts_append "Skipped (exists): " (base ++ main_ext it0)
      · exact hsk m hmem

/-- AMENDED C4: the skip-if-exists property holds of the process-pool
engine (`main.py` `download_file`): a pre-existing final destination path
makes the fetch skip the transfer entirely, report `Skipped (exists)` and
leave the filesystem unchanged; consequently a second run over an unchanged
remote, after a completed first run, produces only `Skipped (exists)`
outcomes (one per item) and changes nothing.  The hybrid engine's
`_download_task` has NO existence check and re-downloads and overwrites
(see the counterexample). -/
theorem C4_skip_and_second_run (env1 env2 : TEnv) (fm : FolderMap)
    (fuel : Nat) (root : String) (items : List DItem) (fs0 fs1 : FSet)
    (msgs1 : List String)
    (hresolve : ∀ it ∈ items, (get_local_path fm fuel root it).isSome = true)
    (hrun1 : runDownloads env1 fm fuel root fs0 items = some (fs1, msgs1)) :
    ∃ msgs2, runDownloads env2 fm fuel root fs1 items = some (fs1, msgs2) ∧
      msgs2.length = items.length ∧
      ∀ m ∈ msgs2, strStarts "Skipped (exists): " m = true := by
  obtain ⟨_, hex⟩ := runDownloads_final_exists env1 fm fuel root items fs0 fs1 msgs1 hrun1
  refine runDownloads_all_skipped env2 fm fuel root items fs1 (fun it hit => ?_)
  obtain ⟨base, hb⟩ := Option.isSome_iff_exists.mp (hresolve it hit)
  exact ⟨base, hb, hex it hit base hb⟩

/-- COUNTEREXAMPLE to C4.  The claim says that a pre-existing final
destination path makes the fetch skip and report `Skipped (exists)`.  The
hybrid engine's `_download_task` (`hybrid_main.py` lines 170-221) has no
existence check: on the concrete item `notes.txt` whose destination
`out/notes.txt` already exists, it re-downloads and overwrites, reporting
`Downloaded`, not `Skipped (exists)`. -/
theorem C4_counterexample :
    ((fun p => p == "out/notes.txt" : FSet) "out/notes.txt" = true) ∧
    (hybrid_download_task ⟨fun _ => true, fun _ => ""⟩ "out"
        (fun p => p == "out/notes.txt")
        ⟨"id1", "notes.txt", "text/plain", [], false⟩).2 =
      "Downloaded: out/notes.txt" ∧
    strStarts "Skipped"
      (hybrid_download_task ⟨fun _ => true, fun _ => ""⟩ "out"
        (fun p => p == "out/notes.txt")
        ⟨"id1", "notes.txt", "text/plain", [], false⟩).2 = false := by
  refine ⟨by decide, by decide, by decide⟩

theorem C4_witness :
    ∃ msgs2,
      runDownloads ⟨fun _ => true, fun _ => ""⟩ [] 1 "out"
          (fsSet (fun _ => false) "out/My Drive/a.txt.txt" true)
          [⟨"a1", "a.txt", "text/plain", [], false⟩] =
        some (fsSet (fun _ => false) "out/My Drive/a.txt.txt" true, msgs2) ∧
      msgs2.length = 1 ∧
      ∀ m ∈ msgs2, strStarts "Skipped (exists): " m = true :=
  C4_skip_and_second_run ⟨fun _ => true, fun _ => ""⟩ ⟨fun _ => true, fun _ => ""⟩
    [] 1 "out" [⟨"a1", "a.txt", "text/plain", [], false⟩]
    (fun _ => false) (fsSet (fun _ => false) "out/My Drive/a.txt.txt" true)
    ["Downloaded: out/My Drive/a.txt.txt"]
    (by decide) (by rfl)

/-! ## Claim C6: filesystem layout -/

theorem joinPath_cons_append (root : String) (segs : List String) (a b : String) :
    joinPath (root :: (segs ++ [a])) ++ b = joinPath (root :: (segs ++ [a ++ b])) := by
  show (segs ++ [a]).foldl (fun acc seg => acc ++ "/" ++ seg) root ++ b =
    (segs ++ [a ++ b]).foldl (fun acc seg => acc ++ "/" ++ seg) root
  rw [List.foldl_append, List.foldl_append]
  show (segs.foldl (fun acc seg => acc ++ "/" ++ seg) root ++ "/" ++ a) ++ b =
    segs.foldl (fun acc seg => acc ++ "/" ++ seg) root ++ "/" ++ (a ++ b)
  rw [String.append_assoc]

/-- COUNTEREXAMPLE to C6.  The claim says every downloaded artifact lands
at `<root>/<reconstructed folder path>/<sanitized name><extension>`.  The
hybrid engine's `_download_task` performs no folder-path reconstruction at
all: for the concrete item `notes.txt` whose parent folder `Docs` is in the
index, the process-pool engine resolves `out/Docs/notes.txt`, but the
hybrid engine writes the artifact flat at `out/notes.txt` (and reports so),
which is not of the claimed form. -/
theorem C6_counterexample :
    (hybrid_download_task ⟨fun _ => true, fun _ => ""⟩ "out" (fun _ => false)
        ⟨"id1", "notes.txt", "text/plain", ["f1"], false⟩).1 "out/notes.txt" = true ∧
    (hybrid_download_task ⟨fun _ => true, fun _ => ""⟩ "out" (fun _ => false)
        ⟨"id1", "notes.txt", "text/plain", ["f1"], false⟩).2 =
      "Downloaded: out/notes.txt" ∧
    get_local_path [("f1", ⟨"Docs", none⟩)] 2 "out"
        ⟨"id1", "notes.txt", "text/plain", ["f1"], false⟩ =
      some "out/Docs/notes.txt" ∧
    ("out/notes.txt" : String) ≠ "out/Docs/notes.txt" := by
  refine ⟨by decide, by decide, by decide, by decide⟩

/-- AMENDED C6: the layout holds of the process-pool engine (`main.py`):
whenever the parent-chain walk terminates with segment list `parts`, the
final path used by `download_file` is
`<root>/<segs>/<sanitized name><extension>` where `segs` is `parts` when
non-empty and otherwise the deterministic fallback segment `Shared` (when
the item's shared flag is set) or `My Drive`.  The hybrid engine ignores
folder ancestry entirely and writes flat into the output folder (see the
counterexample). -/
theorem C6_main_layout (fm : FolderMap) (fuel : Nat) (root : String)
    (it : DItem) (parts : List String)
    (h : chainWalk fm fuel (headParent it) = some parts) :
    ∃ segs, segs ≠ [] ∧
      (parts ≠ [] → segs = parts) ∧
      (parts = [] → segs = if it.shared then ["Shared"] else ["My Drive"]) ∧
      (get_local_path fm fuel root it).map (fun base => base ++ main_ext it) =
        some (joinPath (root :: (segs ++ [sanitize_name it.name ++ main_ext it]))) := by
  refine ⟨if parts = [] then (if it.shared then ["Shared"] else ["My Drive"]) else parts,
    ?_, ?_, ?_, ?_⟩
  · by_cases hp : parts = []
    · rw [if_pos hp]
      cases it.shared <;> simp
    · rw [if_neg hp]; exact hp
  · intro hp; rw [if_neg hp]
  · intro hp; rw [if_pos hp]
  · unfold get_local_path resolve_parts
    rw [h]
    simp only [Option.map_some']
    exact congrArg some (joinPath_cons_append root _ (sanitize_name it.name) (main_ext it))

theorem C6_witness :
    chainWalk [("f1", ⟨"Docs", none⟩)] 2
        (headParent ⟨"id1", "notes.txt", "text/plain", ["f1"], false⟩) =
      some ["Docs"] ∧
    ∃ segs, segs ≠ [] ∧
      ((["Docs"] : List String) ≠ [] → segs = ["Docs"]) ∧
      ((["Docs"] : List String) = [] → segs = ["My Drive"]) ∧
      (get_local_path [("f1", ⟨"Docs", none⟩)] 2 "out"
          ⟨"id1", "notes.txt", "text/plain", ["f1"], false⟩).map
        (fun base => base ++ main_ext ⟨"id1", "notes.txt", "text/plain", ["f1"], false⟩) =
        some (joinPath ("out" :: (segs ++
          [sanitize_name "notes.txt" ++
            main_ext ⟨"id1", "notes.txt", "text/plain", ["f1"], false⟩]))) :=
  ⟨by decide, C6_main_layout [("f1", ⟨"Docs", none⟩)] 2 "out"
    ⟨"id1", "notes.txt", "text/plain", ["f1"], false⟩ ["Docs"] (by decide)⟩

/-! ## Message classification lemmas -/

theorem strStarts_head? (p s : String) (c : Char) (hp : p.data.head? = some c)
    (h : strStarts p s = true) : s.data.head? = some c := by
  simp only [strStarts, List.isPrefixOf_iff_prefix] at h
  obtain ⟨t, ht⟩ := h
  rw [← ht]
  cases hd : p.data with
  | nil => rw [hd] at hp; exact absurd hp (by simp)
  | cons a as => rw [hd] at hp; simpa using hp

/-- Terminal outcome messages are never one of the two sentinels. -/
theorem terminal_not_sentinel (m : String) (h : isTerminalOutcome m = true) :
    isSentinelMsg m = false := by
  have hh : m.data.head? = some 'D' ∨ m.data.head? = some 'S' ∨
      m.data.head? = some 'E' := by
    simp only [isTerminalOutcome, Bool.or_eq_true] at h
    rcases h with (h | h) | h
    · exact Or.inl (strStarts_head? "Downloaded:" m 'D' (by decide) h)
    · exact Or.inr (Or.inl (strStarts_head? "Skipped" m 'S' (by decide) h))
    · exact Or.inr (Or.inr (strStarts_head? "Error" m 'E' (by decide) h))
  have h1 : m ≠ "All worker processes finished." := by
    intro he
    subst he
    rcases hh with h | h | h <;> exact absurd h (by decide)
  have h2 : m ≠ "No files found." := by
    intro he
    subst he
    rcases hh with h | h | h <;> exact absurd h (by decide)
  unfold isSentinelMsg
  rw [beq_eq_false_iff_ne.mpr h1, beq_eq_false_iff_ne.mpr h2]
  rfl

/-- Every terminal outcome message is counted as a completion by the hybrid
consumer loop (the converse fails for `WARNING:` messages). -/
theorem completion_of_terminal (m : String) (h : isTerminalOutcome m = true) :
    isCompletionMsg m = true := by
  simp only [isTerminalOutcome, Bool.or_eq_true] at h
  simp only [isCompletionMsg, Bool.or_eq_true]
  tauto

/-! ## Lemmas about the async emitter loop -/

/-- The messages yielded by `mirror_drive_async`'s collection loop are
exactly the task results, whatever the callback does: the callback is
invoked inside `try: ... except: pass`. -/
theorem asyncEmit_fst (cb : Cb) (total : Nat) :
    ∀ (rs : List String) (c : Nat), (asyncEmit cb total c rs).1 = rs := by
  intro rs
  induction rs with
  | nil => intro c; rfl
  | cons r rest ih =>
    intro c
    simp only [asyncEmit]
    rw [ih]

/-- One callback invocation per collected result, with `completed` running
from `c + 1` up and `total` constant. -/
theorem asyncEmit_events (cb : Cb) (total : Nat) :
    ∀ (rs : List String) (c : Nat),
      ((asyncEmit cb total c rs).2.map (fun ev => ev.completed) =
        List.range' (c + 1) rs.length) ∧
      (∀ ev ∈ (asyncEmit cb total c rs).2, ev.total = total) := by
  intro rs
  induction rs with
  | nil =>
    intro c
    exact ⟨rfl, fun ev hev => absurd hev (List.not_mem_nil ev)⟩
  | cons r rest ih =>
    intro c
    simp only [asyncEmit, List.map_cons, List.length_cons]
    refine ⟨?_, ?_⟩
    · rw [(ih (c + 1)).1, List.range'_succ]
    · intro ev hev
      rcases List.mem_cons.mp hev with rfl | hm
      · rfl
      · exact (ih (c + 1)).2 ev hm

theorem asyncEmit_events_len (cb : Cb) (total : Nat) (rs : List String) (c : Nat) :
    (asyncEmit cb total c rs).2.length = rs.length := by
  have h := (asyncEmit_events cb total rs c).1
  have := congrArg List.length h
  rwa [List.length_map, List.length_range'] at this

theorem chain_le_range' : ∀ (n s : Nat),
    List.Chain' (fun a b => a ≤ b) (List.range' s n)
  | 0, s => by simp
  | 1, s => by simp
  | (n + 2), s => by
    rw [List.range'_succ, List.range'_succ, List.chain'_cons]
    exact ⟨by omega, by rw [← List.range'_succ]; exact chain_le_range' (n + 1) (s + 1)⟩

/-! ## Lemmas about the hybrid consumer loop -/

/-- Nominal run of the consumer loop: when the callback never raises, every
queue message passes the completion test, and the queue holds exactly the
remaining `total - c` messages, the loop yields the whole queue and leaves
nothing to drain. -/
theorem hybridConsume_noraise (cb : Cb) (alive : List String → Bool) (total : Nat)
    (hcb : ∀ c t d, cb c t d = false) :
    ∀ (queue : List String) (c : Nat),
      (∀ m ∈ queue, isCompletionMsg m = true) →
      c + queue.length = total →
      (hybridConsume cb alive total c queue).1 = queue ∧
      (hybridConsume cb alive total c queue).2.2 = [] := by
  intro queue
  induction queue with
  | nil => intro c _ _; exact ⟨rfl, rfl⟩
  | cons msg rest ih =>
    intro c hall hc
    have hlt : c < total := by
      simp only [List.length_cons] at hc
      omega
    have hcm : isCompletionMsg msg = true := hall msg (List.mem_cons_self msg rest)
    have hrest : (c + 1) + rest.length = total := by
      simp only [List.length_cons] at hc
      omega
    obtain ⟨ih1, ih2⟩ :=
      ih (c + 1) (fun m hm => hall m (List.mem_cons_of_mem msg hm)) hrest
    constructor
    · simp only [hybridConsume, if_pos hlt, hcm, if_true, hcb, Bool.false_eq_true,
        if_false]
      rw [ih1]
    · simp only [hybridConsume, if_pos hlt, hcm, if_true, hcb, Bool.false_eq_true,
        if_false]
      rw [ih2]

/-- Callback invocations recorded by the consumer loop: `completed` runs
from `c + 1` consecutively, never exceeds `total`, and the reported `total`
is constant — for EVERY callback behavior (raising or not) and every
liveness pattern. -/
theorem hybridConsume_events (cb : Cb) (alive : List String → Bool) (total : Nat) :
    ∀ (queue : List String) (c : Nat),
      (∀ m ∈ queue, isCompletionMsg m = true) →
      c ≤ total →
      ∃ j, c + j ≤ total ∧
        ((hybridConsume cb alive total c queue).2.1.map (fun ev => ev.completed) =
          List.range' (c + 1) j) ∧
        (∀ ev ∈ (hybridConsume cb alive total c queue).2.1, ev.total = total) := by
  intro queue
  induction queue with
  | nil =>
    intro c _ hc
    exact ⟨0, by omega, rfl, fun ev hev => absurd hev (List.not_mem_nil ev)⟩
  | cons msg rest ih =>
    intro c hall hc
    by_cases hlt : c < total
    · have hcm : isCompletionMsg msg = true := hall msg (List.mem_cons_self msg rest)
      obtain ⟨j, hj, hmap, htot⟩ :=
        ih (c + 1) (fun m hm => hall m (List.mem_cons_of_mem msg hm)) (by omega)
      by_cases hraise : cb (c + 1) total (descOf msg) = true
      · by_cases halive : alive rest = true
        · refine ⟨j + 1, by omega, ?_, ?_⟩
          · simp only [hybridConsume, if_pos hlt, hcm, if_true, hraise, halive,
              List.map_cons]
            rw [hmap, List.range'_succ]
          · intro ev hev
            simp only [hybridConsume, if_pos hlt, hcm, if_true, hraise, halive] at hev
            rcases List.mem_cons.mp hev with rfl | hm
            · rfl
            · exact htot ev hm
        · refine ⟨1, by omega, ?_, ?_⟩
          · simp only [hybridConsume, if_pos hlt, hcm, if_true, hraise, halive,
              Bool.false_eq_true, if_false, List.map_cons, List.map_nil]
            rfl
          · intro ev hev
            simp only [hybridConsume, if_pos hlt, hcm, if_true, hraise, halive,
              Bool.false_eq_true, if_false] at hev
            rcases List.mem_cons.mp hev with rfl | hm
            · rfl
            · exact absurd hm (List.not_mem_nil ev)
      · refine ⟨j + 1, by omega, ?_, ?_⟩
        · simp only [hybridConsume, if_pos hlt, hcm, if_true, hraise,
            Bool.false_eq_true, if_false, List.map_cons]
          rw [hmap, List.range'_succ]
        · intro ev hev
          simp only [hybridConsume, if_pos hlt, hcm, if_true, hraise,
            Bool.false_eq_true, if_false] at hev
          rcases List.mem_cons.mp hev with rfl | hm
          · rfl
          · exact htot ev hm
    · refine ⟨0, by omega, ?_, ?_⟩
      · simp only [hybridConsume, if_neg hlt]
        rfl
      · intro ev hev
        simp only [hybridConsume, if_neg hlt] at hev
        exact absurd hev (List.not_mem_nil ev)

/-- Whatever the callback does, the consumer loop only ever yields messages
taken from the queue (in order), leaves a suffix-like remainder of the
queue to be drained, and records at most one callback event per queue
message. -/
theorem hybridConsume_sublist (cb : Cb) (alive : List String → Bool) (total : Nat) :
    ∀ (queue : List String) (c : Nat),
      List.Sublist (hybridConsume cb alive total c queue).1 queue ∧
      List.Sublist (hybridConsume cb alive total c queue).2.2 queue ∧
      (hybridConsume cb alive total c queue).2.1.length ≤ queue.length := by
  intro queue
  induction queue with
  | nil =>
    intro c
    exact ⟨List.Sublist.refl [], List.Sublist.refl [], Nat.le_refl 0⟩
  | cons msg rest ih =>
    intro c
    by_cases hlt : c < total
    · by_cases hcm : isCompletionMsg msg = true
      · obtain ⟨s1, s2, s3⟩ := ih (c + 1)
        by_cases hraise : cb (c + 1) total (descOf msg) = true
        · by_cases halive : alive rest = true
          · constructor
            · simp only [hybridConsume, if_pos hlt, hcm, if_true, hraise, halive]
              exact List.Sublist.cons msg s1
            constructor
            · simp only [hybridConsume, if_pos hlt, hcm, if_true, hraise, halive]
              exact List.Sublist.cons msg s2
            · simp only [hybridConsume, if_pos hlt, hcm, if_true, hraise, halive,
                List.length_cons]
              omega
          · constructor
            · simp only [hybridConsume, if_pos hlt, hcm, if_true, hraise, halive,
                Bool.false_eq_true, if_false]
              exact List.nil_sublist _
            constructor
            · simp only [hybridConsume, if_pos hlt, hcm, if_true, hraise, halive,
                Bool.false_eq_true, if_false]
              exact List.Sublist.cons msg (List.Sublist.refl rest)
            · simp only [hybridConsume, if_pos hlt, hcm, if_true, hraise, halive,
                Bool.false_eq_true, if_false, List.length_cons, List.length_singleton, List.length_nil]
              omega
        · constructor
          · simp only [hybridConsume, if_pos hlt, hcm, if_true, hraise,
              Bool.false_eq_true, if_false]
            exact List.Sublist.cons₂ msg s1
          constructor
          · simp only [hybridConsume, if_pos hlt, hcm, if_true, hraise,
              Bool.false_eq_true, if_false]
            exact List.Sublist.cons msg s2
          · simp only [hybridConsume, if_pos hlt, hcm, if_true, hraise,
              Bool.false_eq_true, if_false, List.length_cons]
            omega
      · obtain ⟨s1, s2, s3⟩ := ih c
        have hcm2 : isCompletionMsg msg = false := by
          cases hx : isCompletionMsg msg
          · rfl
          · exact absurd hx hcm
        by_cases hraise : cb c total (descOf msg) = true
        · by_cases halive : alive rest = true
          · constructor
            · simp only [hybridConsume, if_pos hlt, hcm2, Bool.false_eq_true,
                if_false, hraise, halive, if_true]
              exact List.Sublist.cons msg s1
            constructor
            · simp only [hybridConsume, if_pos hlt, hcm2, Bool.false_eq_true,
                if_false, hraise, halive, if_true]
              exact List.Sublist.cons msg s2
            · simp only [hybridConsume, if_pos hlt, hcm2, Bool.false_eq_true,
                if_false, hraise, halive, if_true, List.length_cons]
              omega
          · constructor
            · simp only [hybridConsume, if_pos hlt, hcm2, Bool.false_eq_true,
                if_false, hraise, halive, if_true]
              exact List.nil_sublist _
            constructor
            · simp only [hybridConsume, if_pos hlt, hcm2, Bool.false_eq_true,
                if_false, hraise, halive, if_true]
              exact List.Sublist.cons msg (List.Sublist.refl rest)
            · simp only [hybridConsume, if_pos hlt, hcm2, Bool.false_eq_true,
                if_false, hraise, halive, if_true, List.length_cons,
                List.length_singleton, List.length_nil]
              omega
        · constructor
          · simp only [hybridConsume, if_pos hlt, hcm2, Bool.false_eq_true,
              if_false, hraise]
            exact List.Sublist.cons₂ msg s1
          constructor
          · simp only [hybridConsume, if_pos hlt, hcm2, Bool.false_eq_true,
              if_false, hraise]
            exact List.Sublist.cons msg s2
          · simp only [hybridConsume, if_pos hlt, hcm2, Bool.false_eq_true,
              if_false, hraise, List.length_cons]
            omega
    · constructor
      · simp only [hybridConsume, if_neg hlt]
        exact List.nil_sublist _
      constructor
      · simp only [hybridConsume, if_neg hlt]
        exact List.Sublist.refl _
      · simp only [hybridConsume, if_neg hlt]
        simp

/-- Per-item messages of a full `main.py` run: one terminal outcome per
item. -/
theorem runDownloads_msgs (env : TEnv) (fm : FolderMap) (fuel : Nat)
    (root : String) :
    ∀ (items : List DItem) (fs fs1 : FSet) (msgs : List String),
      runDownloads env fm fuel root fs items = some (fs1, msgs) →
      msgs.length = items.length ∧ ∀ m ∈ msgs, isTerminalOutcome m = true := by
  intro items
  induction items with
  | nil =>
    intro fs fs1 msgs h
    simp only [runDownloads, Option.some.injEq] at h
    injection h with h1 h2
    rw [← h2]
    exact ⟨rfl, fun m hm => absurd hm (List.not_mem_nil m)⟩
  | cons it0 rest ih =>
    intro fs fs1 msgs h
    simp only [runDownloads] at h
    cases hd : download_file env fm fuel root fs it0 with
    | none => rw [hd] at h; exact absurd h (by simp)
    | some r =>
      rw [hd, Option.some_bind] at h
      cases hr : runDownloads env fm fuel root r.1 rest with
      | none => rw [hr] at h; exact absurd h (by simp)
      | some r2 =>
        rw [hr, Option.map_some'] at h
        injection h with h12
        injection h12 with h1 h2
        obtain ⟨ihlen, ihterm⟩ := ih r.1 r2.1 r2.2 (by rw [hr])
        rw [← h2]
        constructor
        · simp [ihlen]
        · intro m hm
          rcases List.mem_cons.mp hm with rfl | hmem
          · exact download_file_msg_terminal env fm fuel root fs it0 r.1 r.2
              (by rw [hd])
          · exact ihterm m hmem

/-! ## Claim C1: terminal outcome counting -/

/-- COUNTEREXAMPLE to C1.  The claim says a run emits exactly T terminal
outcome messages BEFORE THE FINAL SENTINEL.  `mirror_drive_async`
(`main.py` lines 194-237) emits no sentinel at all: for the concrete
one-item run whose single task result is exactly the message that
`download_file` produces for that item, the output is that one message and
nothing after it — no suffix of the output is a sentinel message. -/
theorem C1_counterexample :
    ((runDownloads ⟨fun _ => true, fun _ => ""⟩ [] 1 "out" (fun _ => false)
        [⟨"a1", "a.txt", "text/plain", [], false⟩]).map (fun r => r.2) =
      some ["Downloaded: out/My Drive/a.txt.txt"]) ∧
    (mirror_drive_async (fun _ _ _ => false)
        [⟨"a1", "a.txt", "text/plain", [], false⟩]
        ["Downloaded: out/My Drive/a.txt.txt"]).1 =
      ["Downloaded: out/My Drive/a.txt.txt"] ∧
    ¬ ∃ pre s, (mirror_drive_async (fun _ _ _ => false)
        [⟨"a1", "a.txt", "text/plain", [], false⟩]
        ["Downloaded: out/My Drive/a.txt.txt"]).1 = pre ++ [s] ∧
      isSentinelMsg s = true := by
  refine ⟨by rfl, by rfl, ?_⟩
  rintro ⟨pre, s, heq, hs⟩
  rw [show (mirror_drive_async (fun _ _ _ => false)
      [⟨"a1", "a.txt", "text/plain", [], false⟩]
      ["Downloaded: out/My Drive/a.txt.txt"]).1 =
      ["Downloaded: out/My Drive/a.txt.txt"] from rfl] at heq
  have hlen := congrArg List.length heq
  simp only [List.length_append, List.length_cons, List.length_nil] at hlen
  have hpre : pre = [] := List.length_eq_zero.mp (by omega)
  subst hpre
  rw [List.nil_append] at heq
  injection heq with h1 _
  rw [← h1] at hs
  exact absurd hs (by decide)

/-- AMENDED C1: for every non-empty target set of T non-folder items and
every completion order (the permutation abstracts the nondeterministic
concurrent schedule, hence any concurrency budget), (i) the hybrid engine
yields the T per-item messages followed by the final sentinel, and exactly
T of the yielded messages are terminal outcomes, each item contributing
exactly one; (ii) the async engine (`main.py`) yields exactly the T
per-item messages — all terminal outcomes, one per item — but ends WITHOUT
any sentinel message. -/
theorem C1_terminal_count (cb : Cb) (alive : List String → Bool)
    (env : TEnv) (out : String) (fsOf : DItem → FSet)
    (fm : FolderMap) (fuel : Nat) (root : String) (aenv : TEnv)
    (targets : List DItem) (queue : List String)
    (fs0 fs1 : FSet) (amsgs results : List String)
    (htne : targets ≠ [])
    (hq : queue.Perm (targets.map fun it =>
      (hybrid_download_task env out (fsOf it) it).2))
    (hcb : ∀ c t d, cb c t d = false)
    (hrun : runDownloads aenv fm fuel root fs0 targets = some (fs1, amsgs))
    (hres : results.Perm amsgs) :
    ((mirror_drive_hybrid cb alive targets queue).1 =
        queue ++ ["All worker processes finished."] ∧
      queue.countP (fun m => isTerminalOutcome m) = targets.length) ∧
    ((mirror_drive_async cb targets results).1 = results ∧
      results.countP (fun m => isTerminalOutcome m) = targets.length ∧
      ∀ m ∈ results, isSentinelMsg m = false) := by
  have hlen0 : targets.length ≠ 0 := fun h => htne (List.length_eq_zero.mp h)
  have hallmap : ∀ a ∈ (targets.map fun it =>
      (hybrid_download_task env out (fsOf it) it).2), isTerminalOutcome a = true := by
    intro a ha
    obtain ⟨it, _, rfl⟩ := List.mem_map.mp ha
    exact hybrid_task_msg_terminal env out (fsOf it) it
  have hqt : ∀ m ∈ queue, isTerminalOutcome m = true :=
    fun m hm => hallmap m (hq.mem_iff.mp hm)
  have hqc : ∀ m ∈ queue, isCompletionMsg m = true :=
    fun m hm => completion_of_terminal m (hqt m hm)
  have hqlen : queue.length = targets.length := by
    rw [hq.length_eq, List.length_map]
  obtain ⟨hrlen, hrterm⟩ :=
    runDownloads_msgs aenv fm fuel root targets fs0 fs1 amsgs hrun
  refine ⟨⟨?_, ?_⟩, ?_, ?_, ?_⟩
  · simp only [mirror_drive_hybrid, if_neg hlen0]
    obtain ⟨h1, h2⟩ := hybridConsume_noraise cb alive targets.length hcb queue 0
      hqc (by omega)
    rw [h1, h2, List.append_nil]
  · rw [hq.countP_eq, List.countP_eq_length.mpr hallmap, List.length_map]
  · simp only [mirror_drive_async, if_neg hlen0]
    exact asyncEmit_fst cb targets.length results 0
  · rw [hres.countP_eq, List.countP_eq_length.mpr hrterm, hrlen]
  · intro m hm
    exact terminal_not_sentinel m (hrterm m (hres.mem_iff.mp hm))

theorem C1_witness :
    ((mirror_drive_hybrid (fun _ _ _ => false) (fun _ => true)
        [⟨"a1", "a.txt", "text/plain", [], false⟩] ["Downloaded: out/a.txt"]).1 =
        ["Downloaded: out/a.txt"] ++ ["All worker processes finished."] ∧
      List.countP (fun m => isTerminalOutcome m) ["Downloaded: out/a.txt"] = 1) ∧
    ((mirror_drive_async (fun _ _ _ => false)
        [⟨"a1", "a.txt", "text/plain", [], false⟩]
        ["Downloaded: out/My Drive/a.txt.txt"]).1 =
        ["Downloaded: out/My Drive/a.txt.txt"] ∧
      List.countP (fun m => isTerminalOutcome m)
        ["Downloaded: out/My Drive/a.txt.txt"] = 1 ∧
      ∀ m ∈ ["Downloaded: out/My Drive/a.txt.txt"], isSentinelMsg m = false) :=
  C1_terminal_count (fun _ _ _ => false) (fun _ => true)
    ⟨fun _ => true, fun _ => ""⟩ "out" (fun _ _ => false)
    [] 1 "out" ⟨fun _ => true, fun _ => ""⟩
    [⟨"a1", "a.txt", "text/plain", [], false⟩] ["Downloaded: out/a.txt"]
    (fun _ => false) (fsSet (fun _ => false) "out/My Drive/a.txt.txt" true)
    ["Downloaded: out/My Drive/a.txt.txt"] ["Downloaded: out/My Drive/a.txt.txt"]
    (by decide) (by decide) (fun _ _ _ => rfl) (by rfl) (by decide)

/-! ## Claim C7: callback failures are isolated -/

/-- C7 (confirmed): a raising progress callback never aborts a run or cuts
the output sequence short.  In `mirror_drive_async` the callback is invoked
inside `try/except: pass`, so the yielded sequence is identical for every
callback behavior, with at most one invocation per collected result.  In
`mirror_drive_hybrid` the loop body's `try/except` catches a raising
callback; for EVERY callback and worker-liveness behavior the run still
terminates in a sentinel message, yields only (a subsequence of) genuine
queue messages, and invokes the callback at most once per queue message
(hence at most once per completed item). -/
theorem C7_callback_isolated (cb cbB : Cb) (alive : List String → Bool)
    (targets : List DItem) (queue results : List String) :
    ((mirror_drive_async cb targets results).1 =
      (mirror_drive_async cbB targets results).1) ∧
    ((mirror_drive_async cb targets results).2.length ≤ results.length) ∧
    (∃ pre s, (mirror_drive_hybrid cb alive targets queue).1 = pre ++ [s] ∧
      isSentinelMsg s = true) ∧
    List.Sublist (hybridConsume cb alive targets.length 0 queue).1 queue ∧
    (hybridConsume cb alive targets.length 0 queue).2.1.length ≤ queue.length := by
  refine ⟨?_, ?_, ?_, (hybridConsume_sublist cb alive targets.length queue 0).1,
    (hybridConsume_sublist cb alive targets.length queue 0).2.2⟩
  · by_cases h : targets.length = 0
    · simp only [mirror_drive_async, if_pos h]
    · simp only [mirror_drive_async, if_neg h]
      rw [asyncEmit_fst cb targets.length results 0,
        asyncEmit_fst cbB targets.length results 0]
  · by_cases h : targets.length = 0
    · simp only [mirror_drive_async, if_pos h]
      simp
    · simp only [mirror_drive_async, if_neg h]
      exact Nat.le_of_eq (asyncEmit_events_len cb targets.length results 0)
  · by_cases h : targets.length = 0
    · refine ⟨[], "No files found.", ?_, by decide⟩
      simp only [mirror_drive_hybrid, if_pos h]
      rfl
    · refine ⟨(hybridConsume cb alive targets.length 0 queue).1 ++
        (hybridConsume cb alive targets.length 0 queue).2.2,
        "All worker processes finished.", ?_, by decide⟩
      simp only [mirror_drive_hybrid, if_neg h]

/-! ## Claim C8: the unmapped-native-type skip branch is unreachable -/

/-- Totality of the export mapping on native mime types: the PDF fallback
covers every google-apps subtype. -/
theorem map_export_total (m : String) (hm : strStarts gappsMarker m = true) :
    (_map_export_mime m).isSome = true := by
  unfold _map_export_mime
  by_cases h1 : m = "application/vnd.google-apps.document"
  · rw [if_pos h1]; rfl
  · rw [if_neg h1]
    by_cases h2 : m = "application/vnd.google-apps.spreadsheet"
    · rw [if_pos h2]; rfl
    · rw [if_neg h2]
      by_cases h3 : m = "application/vnd.google-apps.presentation"
      · rw [if_pos h3]; rfl
      · rw [if_neg h3, if_pos hm]; rfl

theorem not_skipped_of_downloaded (r : String) :
    strStarts "Skipped" ("Downloaded: " ++ r) = false := by
  cases h : strStarts "Skipped" ("Downloaded: " ++ r)
  · rfl
  · have h1 := strStarts_head? "Skipped" _ 'S' (by decide) h
    have h2 := strStarts_head? "Downloaded:" ("Downloaded: " ++ r) 'D' (by decide)
      (strStarts_trans_append "Downloaded:" "Downloaded: " r (by decide))
    rw [h1] at h2
    exact absurd h2 (by decide)

theorem not_skipped_of_error (a b : String) :
    strStarts "Skipped" ("Error downloading " ++ a ++ ": " ++ b) = false := by
  cases h : strStarts "Skipped" ("Error downloading " ++ a ++ ": " ++ b)
  · rfl
  · have hE : strStarts "Error" ("Error downloading " ++ a ++ ": " ++ b) = true := by
      have x1 := strStarts_trans_append "Error" "Error downloading " a (by decide)
      have x2 := strStarts_trans_append "Error" ("Error downloading " ++ a) ": " x1
      exact strStarts_trans_append "Error" ("Error downloading " ++ a ++ ": ") b x2
    have h1 := strStarts_head? "Skipped" _ 'S' (by decide) h
    have h2 := strStarts_head? "Error" _ 'E' (by decide) hE
    rw [h1] at h2
    exact absurd h2 (by decide)

/-- COUNTEREXAMPLE to C8.  The claim posits a native-document item whose
subtype has no entry in the export mapping.  No such item exists:
`_map_export_mime` (`hybrid_main.py` lines 128-141) maps EVERY mime type
starting with `application/vnd.google-apps` to an export type, falling back
to PDF, so its `None` case — and with it the
`Skipped (no export type)` message of `_download_task` — is unreachable. -/
theorem C8_counterexample :
    ¬ ∃ mime : String, strStarts gappsMarker mime = true ∧
      _map_export_mime mime = none := by
  rintro ⟨m, hpre, hmap⟩
  have h := map_export_total m hpre
  rw [hmap] at h
  exact absurd h (by decide)

/-- AMENDED C8: every native (google-apps) item has an export mapping —
unknown subtypes fall back to PDF — so `_download_task` never emits any
`Skipped` message for it (in particular not `Skipped (no export type)`) and
instead produces a normal terminal outcome (`Downloaded` or `Error`), which
the consumer counts toward the total like any other completion. -/
theorem C8_native_always_mapped (it : DItem) (env : TEnv) (out : String)
    (fs : FSet) (hnative : strStarts gappsMarker it.mimeType = true) :
    (_map_export_mime it.mimeType).isSome = true ∧
    strStarts "Skipped" (hybrid_download_task env out fs it).2 = false ∧
    isTerminalOutcome (hybrid_download_task env out fs it).2 = true := by
  have hsome := map_export_total it.mimeType hnative
  refine ⟨hsome, ?_, hybrid_task_msg_terminal env out fs it⟩
  obtain ⟨em, hem⟩ := Option.isSome_iff_exists.mp hsome
  have hx : hybridExtFor it = some (exportExt em) := by
    unfold hybridExtFor
    rw [if_pos hnative, hem, Option.map_some']
  simp only [hybrid_download_task, hx, download_file_aio_snd, Bool.not_not]
  cases ho : env.ok it.id
  · simp only [Bool.false_eq_true, if_false]
    exact not_skipped_of_error it.name (env.err it.id)
  · simp only [if_true]
    exact not_skipped_of_downloaded _

theorem C8_witness :
    strStarts gappsMarker "application/vnd.google-apps.drawing" = true ∧
    ((_map_export_mime "application/vnd.google-apps.drawing").isSome = true ∧
      strStarts "Skipped"
        (hybrid_download_task ⟨fun _ => true, fun _ => ""⟩ "out" (fun _ => false)
          ⟨"g1", "draw", "application/vnd.google-apps.drawing", [], false⟩).2 = false ∧
      isTerminalOutcome
        (hybrid_download_task ⟨fun _ => true, fun _ => ""⟩ "out" (fun _ => false)
          ⟨"g1", "draw", "application/vnd.google-apps.drawing", [], false⟩).2 = true) :=
  ⟨by decide, C8_native_always_mapped
    ⟨"g1", "draw", "application/vnd.google-apps.drawing", [], false⟩
    ⟨fun _ => true, fun _ => ""⟩ "out" (fun _ => false) (by decide)⟩

/-! ## Claim C9: the empty run -/

/-- COUNTEREXAMPLE to C9.  The claim says a run over zero non-folder items
outputs exactly the single message `No files found.`.  That is the hybrid
engine's message; `mirror_drive_async` (`main.py` line 209) emits the
different message `No files found to download.`, so the claim as stated
fails on the async engine. -/
theorem C9_counterexample :
    (mirror_drive_async (fun _ _ _ => false) [] []).1 =
      ["No files found to download."] ∧
    ("No files found to download." : String) ≠ "No files found." :=
  ⟨rfl, by decide⟩

/-- AMENDED C9: with zero non-folder items each engine concludes
immediately with exactly one message and no progress-callback invocations —
`No files found.` for the hybrid engine, `No files found to download.` for
the async engine. -/
theorem C9_empty_run (cb : Cb) (alive : List String → Bool)
    (queue results : List String) :
    mirror_drive_hybrid cb alive [] queue = (["No files found."], []) ∧
    mirror_drive_async cb [] results = (["No files found to download."], []) :=
  ⟨rfl, rfl⟩

/-! ## Claim C10: progress callback argument invariants -/

/-- C10 (confirmed): in every nominal run with T ≥ 0 items (every queue
message passes the completion test; the async result list has one entry per
item), every recorded callback invocation satisfies
`1 ≤ completed ≤ T` with `total = T` constant, and `completed` never
decreases across successive invocations — in both engines, for every
callback behavior. -/
theorem C10_progress_invariants (cb : Cb) (alive : List String → Bool)
    (targets : List DItem) (queue results : List String)
    (hq : ∀ m ∈ queue, isCompletionMsg m = true)
    (hres : results.length = targets.length) :
    (∀ ev ∈ (mirror_drive_hybrid cb alive targets queue).2,
      1 ≤ ev.completed ∧ ev.completed ≤ targets.length ∧
        ev.total = targets.length) ∧
    List.Chain' (fun a b => a.completed ≤ b.completed)
      (mirror_drive_hybrid cb alive targets queue).2 ∧
    (∀ ev ∈ (mirror_drive_async cb targets results).2,
      1 ≤ ev.completed ∧ ev.completed ≤ targets.length ∧
        ev.total = targets.length) ∧
    List.Chain' (fun a b => a.completed ≤ b.completed)
      (mirror_drive_async cb targets results).2 := by
  by_cases h0 : targets.length = 0
  · refine ⟨?_, ?_, ?_, ?_⟩
    · simp only [mirror_drive_hybrid, if_pos h0]
      intro ev hev
      exact absurd hev (List.not_mem_nil ev)
    · simp only [mirror_drive_hybrid, if_pos h0]
      simp
    · simp only [mirror_drive_async, if_pos h0]
      intro ev hev
      exact absurd hev (List.not_mem_nil ev)
    · simp only [mirror_drive_async, if_pos h0]
      simp
  · obtain ⟨j, hj, hmap, htot⟩ :=
      hybridConsume_events cb alive targets.length queue 0 hq (by omega)
    obtain ⟨hamap, hatot⟩ := asyncEmit_events cb targets.length results 0
    refine ⟨?_, ?_, ?_, ?_⟩
    · simp only [mirror_drive_hybrid, if_neg h0]
      intro ev hev
      have hc : ev.completed ∈ List.range' 1 j := by
        rw [← hmap]
        exact List.mem_map_of_mem (fun ev => ev.completed) hev
      obtain ⟨i, hij, hi⟩ := List.mem_range'.mp hc
      refine ⟨by omega, by omega, htot ev hev⟩
    · simp only [mirror_drive_hybrid, if_neg h0]
      have hch : List.Chain' (fun a b => a ≤ b)
          ((hybridConsume cb alive targets.length 0 queue).2.1.map
            (fun ev => ev.completed)) := by
        rw [hmap]
        exact chain_le_range' j 1
      rw [List.chain'_map] at hch
      exact hch
    · simp only [mirror_drive_async, if_neg h0]
      intro ev hev
      have hc : ev.completed ∈ List.range' 1 results.length := by
        rw [← hamap]
        exact List.mem_map_of_mem (fun ev => ev.completed) hev
      obtain ⟨i, hij, hi⟩ := List.mem_range'.mp hc
      refine ⟨by omega, by omega, hatot ev hev⟩
    · simp only [mirror_drive_async, if_neg h0]
      have hch : List.Chain' (fun a b => a ≤ b)
          ((asyncEmit cb targets.length 0 results).2.map
            (fun ev => ev.completed)) := by
        rw [hamap]
        exact chain_le_range' results.length 1
      rw [List.chain'_map] at hch
      exact hch

theorem C10_witness :
    (∀ ev ∈ (mirror_drive_hybrid (fun _ _ _ => false) (fun _ => true)
        [⟨"a1", "a.txt", "text/plain", [], false⟩] ["Downloaded: out/a.txt"]).2,
      1 ≤ ev.completed ∧ ev.completed ≤ 1 ∧ ev.total = 1) ∧
    List.Chain' (fun a b => a.completed ≤ b.completed)
      (mirror_drive_hybrid (fun _ _ _ => false) (fun _ => true)
        [⟨"a1", "a.txt", "text/plain", [], false⟩] ["Downloaded: out/a.txt"]).2 ∧
    (∀ ev ∈ (mirror_drive_async (fun _ _ _ => false)
        [⟨"a1", "a.txt", "text/plain", [], false⟩]
        ["Downloaded: out/My Drive/a.txt.txt"]).2,
      1 ≤ ev.completed ∧ ev.completed ≤ 1 ∧ ev.total = 1) ∧
    List.Chain' (fun a b => a.completed ≤ b.completed)
      (mirror_drive_async (fun _ _ _ => false)
        [⟨"a1", "a.txt", "text/plain", [], false⟩]
        ["Downloaded: out/My Drive/a.txt.txt"]).2 :=
  C10_progress_invariants (fun _ _ _ => false) (fun _ => true)
    [⟨"a1", "a.txt", "text/plain", [], false⟩] ["Downloaded: out/a.txt"]
    ["Downloaded: out/My Drive/a.txt.txt"] (by decide) (by decide)

end GDrive
